import Mathlib

/-!
Verification development for the expression-frame pipeline in
`src/app/api/analyze_exp/route.ts`.

The handler `POST` receives `{ videoUrl, expression }`, fetches the video,
sends it with a prompt to an inference model, parses the returned JSON,
writes the video to a temporary file, probes its duration, then for each
parsed timestamp range extracts a frame at the range start and uploads it,
and finally assembles the per-expression frame URL mapping.

External effects (HTTP fetch, the inference model, JSON.parse of the model
text, ffprobe, ffmpeg frame extraction, the image host) are modelled as an
oracle record `World`; the control flow, validation, JSON-shape checks,
back-filling, timestamp arithmetic, skip logic, temp-file bookkeeping and
response selection are translated directly from the source.
-/

/-- JavaScript numbers as used by the timestamp conversion in
`extractFrame` (line 89): `parseInt` may yield NaN, and NaN propagates
through `acc * 60 + parseInt(time)` and compares false under `>`.
JSON/JS numbers relevant to the claims are integral, so the numeric case
carries an `Int`. -/
inductive JNum where
  | nan : JNum
  | val : Int → JNum
deriving DecidableEq, Repr

/-- JS addition on the number model: any NaN operand gives NaN. -/
def jadd : JNum → JNum → JNum
  | JNum.val a, JNum.val b => JNum.val (a + b)
  | _, _ => JNum.nan

/-- JS multiplication by 60 (the `acc * 60` in the reduce): NaN sticks. -/
def jmul60 : JNum → JNum
  | JNum.val a => JNum.val (a * 60)
  | JNum.nan => JNum.nan

/-- JS `>` against the probed duration: any comparison with NaN is false. -/
def jgtInt : JNum → Int → Bool
  | JNum.val a, d => a > d
  | JNum.nan, _ => false

/-- JS whitespace accepted by `parseInt` before the digits (the forms that
can occur in the strings this route handles). -/
def isWsJS (c : Char) : Bool :=
  c = ' ' || c = '\t' || c = '\n' || c = '\r'

/-- Numeric value of a decimal digit character. -/
def digitVal (c : Char) : Int :=
  Int.ofNat (c.toNat - '0'.toNat)

/-- Value of a list of decimal digit characters, most significant first. -/
def digitsVal (ds : List Char) : Int :=
  ds.foldl (fun a c => a * 10 + digitVal c) 0

/-- JS `parseInt(s)` (base 10): skip leading whitespace, optional sign,
then the longest run of decimal digits; NaN when no digit follows.
Trailing non-digit characters are ignored, as in JS.  (The `0x` hex form
of `parseInt` is not modelled; the timestamp fields this route converts
are decimal.) -/
def parseIntJS (s : String) : JNum :=
  let cs := s.data.dropWhile isWsJS
  match cs with
  | '-' :: rest =>
    let ds := rest.takeWhile Char.isDigit
    if ds.isEmpty then JNum.nan else JNum.val (-(digitsVal ds))
  | '+' :: rest =>
    let ds := rest.takeWhile Char.isDigit
    if ds.isEmpty then JNum.nan else JNum.val (digitsVal ds)
  | _ =>
    let ds := cs.takeWhile Char.isDigit
    if ds.isEmpty then JNum.nan else JNum.val (digitsVal ds)

/-- JS `String.prototype.split(':')` on the underlying character list:
splits at every colon, keeping empty segments, and maps the empty string
to one empty segment. -/
def splitCols : List Char → List (List Char)
  | [] => [[]]
  | c :: cs =>
    if c = ':' then [] :: splitCols cs
    else
      match splitCols cs with
      | [] => [[c]]
      | f :: r => (c :: f) :: r

/-- The colon-separated fields of a timestamp string (`timestamp.split(':')`
at line 89 of the route). -/
def tsFields (s : String) : List String :=
  (splitCols s.data).map String.mk

/-- One step of the reduce at line 89: `acc * 60 + parseInt(time)`. -/
def tsStep (acc : JNum) (t : String) : JNum :=
  jadd (jmul60 acc) (parseIntJS t)

/-- `timestamp.split(':').reduce((acc, time) => acc * 60 + parseInt(time), 0)`
(line 89 of the route): the converted-seconds value of a timestamp. -/
def tsSecondsJS (s : String) : JNum :=
  (tsFields s).foldl tsStep (JNum.val 0)

/-- JSON values, as produced by `JSON.parse` on the cleaned model text.
Objects carry their property list in order; `JSON.parse` never yields
duplicate keys (a later duplicate overwrites), so object field lists are
duplicate-free.  JSON numbers appearing in this route are integral. -/
inductive JValue where
  | null : JValue
  | bool : Bool → JValue
  | num : Int → JValue
  | str : String → JValue
  | arr : List JValue → JValue
  | obj : List (String × JValue) → JValue

/-- JS `typeof v === 'object'` on a parsed JSON value: true for objects,
arrays, and null. -/
def jsTypeofObject : JValue → Bool
  | JValue.null => true
  | JValue.arr _ => true
  | JValue.obj _ => true
  | _ => false

/-- JS `v === null` on a parsed JSON value. -/
def isNullJ : JValue → Bool
  | JValue.null => true
  | _ => false

/-- The rejection condition of the "all" branch at line 238:
`typeof analysis !== 'object' || analysis === null`.  Note that a JS array
has typeof `'object'`, so arrays are NOT rejected here. -/
def rejectedAllMode (v : JValue) : Bool :=
  !jsTypeofObject v || isNullJ v

/-- The own enumerable string-keyed entries of a JS value, in the order
`Object.entries` yields them: object properties in order; array elements
under their decimal index keys; nothing for primitives. -/
def jsEntries : JValue → List (String × JValue)
  | JValue.obj kvs => kvs
  | JValue.arr l => l.enum.map (fun p => (toString p.1, p.2))
  | _ => []

/-- The fixed expression vocabulary (line 182 of the route). -/
def allExpressions : List String :=
  ["happy", "sad", "angry", "surprised", "neutral"]

/-- JS `exp in analysis` on the entries view. -/
def hasKeyB (es : List (String × JValue)) (k : String) : Bool :=
  es.any (fun kv => decide (kv.1 = k))

/-- One iteration of the back-fill loop at lines 242-246: add the
expression with an empty array unless the key is already present; a fresh
property lands after the existing ones in enumeration order. -/
def backfillStep (es : List (String × JValue)) (exp : String) :
    List (String × JValue) :=
  if hasKeyB es exp then es else es ++ [(exp, JValue.arr [])]

/-- The back-fill loop over the five fixed expressions (lines 242-246). -/
def backfill (es : List (String × JValue)) : List (String × JValue) :=
  allExpressions.foldl backfillStep es

/-- The "all" branch of the response parser (lines 235-250): fail when
`JSON.parse` threw (modelled as `none`) or the typeof/null check rejects;
otherwise back-fill the five fixed expression keys over the entries of the
parsed value. -/
def parseAnalysisAll (v : Option JValue) :
    Except Unit (List (String × JValue)) :=
  match v with
  | none => Except.error ()
  | some v =>
    if rejectedAllMode v then Except.error ()
    else Except.ok (backfill (jsEntries v))

/-- The single-expression branch of the response parser (lines 251-263):
fail when `JSON.parse` threw or `Array.isArray` is false; otherwise the
analysis is the one-key mapping from the requested expression to the
array. -/
def parseAnalysisSingle (expression : String) (v : Option JValue) :
    Except Unit (List (String × JValue)) :=
  match v with
  | none => Except.error ()
  | some (JValue.arr l) => Except.ok [(expression, JValue.arr l)]
  | some _ => Except.error ()

/-- `ts.start` as the extraction loop reads it (line 282): defined only
when the range is an object whose `start` property is a string; any other
shape makes `timestamp.split` throw at line 89, which the model maps to a
request-level error. -/
def getStart : JValue → Option String
  | JValue.obj kvs =>
    match kvs.find? (fun kv => decide (kv.1 = "start")) with
    | some (_, JValue.str s) => some s
    | _ => none
  | _ => none

/-- The request body fields the handler destructures at line 152.
`none` models an absent field; the JS falsiness checks also treat the
empty string as absent. -/
structure Request where
  videoUrl : Option String
  expression : Option String
deriving DecidableEq, Repr

/-- The external world of one request: outcomes of the HTTP fetch, the
inference call, `JSON.parse` of the fence-cleaned model text, the ffprobe
duration probe, ffmpeg frame extraction per timestamp, and the image-host
upload per frame buffer (buffers abbreviated to `Nat` tokens). -/
structure World where
  fetchOk : Bool
  videoSize : Nat
  aiCallOk : Bool
  aiText : Option String
  parsed : Option JValue
  probeResult : Except Unit Int
  ffmpegAvailable : Bool
  ffmpegFrame : String → Option Nat
  uploadRes : Nat → Option String

/-- Pipeline stage events, emitted at the code points where each stage
completes (for the per-timestamp ones: where the external call is
issued). -/
inductive Ev where
  | validated : Ev
  | fetched : Ev
  | inferred : Ev
  | parsed : Ev
  | probed : Ev
  | extracting : String → Ev
  | uploading : String → Ev
  | assembled : Ev
deriving DecidableEq, Repr

/-- The distinct response shapes the handler can return. -/
inductive Resp where
  | missingVideoUrl : Resp
  | videoTooLarge : Resp
  | noAiResponse : Resp
  | parseFailure : Resp
  | internalError : Resp
  | success : List (String × List String) → Resp
  | successEmpty : Resp
deriving DecidableEq, Repr

/-- The HTTP status each response shape carries in the source. -/
def statusOf : Resp → Nat
  | Resp.missingVideoUrl => 400
  | Resp.videoTooLarge => 400
  | Resp.noAiResponse => 500
  | Resp.parseFailure => 500
  | Resp.internalError => 500
  | Resp.success _ => 200
  | Resp.successEmpty => 200

/-- What one request run produced: the stage-event trace, the response,
and whether the full-video temp file was created (line 271) and deleted
(the `finally` at lines 299-305). -/
structure Output where
  events : List Ev
  resp : Resp
  tempCreated : Bool
  tempDeleted : Bool
deriving DecidableEq, Repr

/-- Outcome of `extractFrame` for one timestamp: skipped (resolved null),
a frame buffer, or a rejection. -/
inductive FrameOut where
  | skipped : FrameOut
  | ok : Nat → FrameOut
  | err : FrameOut
deriving DecidableEq, Repr

/-- `extractFrame` (lines 87-140): convert the timestamp, skip when the
converted seconds exceed the duration (NaN compares false, so a NaN
timestamp is NOT skipped), reject when ffmpeg is unavailable, otherwise
run the external extraction. -/
def extractFrame (w : World) (timestamp : String) (duration : Int) :
    FrameOut :=
  if jgtInt (tsSecondsJS timestamp) duration then FrameOut.skipped
  else if !w.ffmpegAvailable then FrameOut.err
  else
    match w.ffmpegFrame timestamp with
    | some b => FrameOut.ok b
    | none => FrameOut.err

/-- The inner per-timestamp loop (lines 281-290) over one expression:
read `ts.start` (a non-conforming range makes the JS `split` throw, which
aborts the request), call `extractFrame`, skip on null, abort the request
on an extraction or upload rejection, otherwise record the uploaded URL.
Returns the per-timestamp events issued and either the frame URLs or the
abort. -/
def processTs (w : World) (duration : Int) :
    List JValue → List Ev × Except Unit (List String)
  | [] => ([], Except.ok [])
  | ts :: rest =>
    match getStart ts with
    | none => ([], Except.error ())
    | some s =>
      match extractFrame w s duration with
      | FrameOut.skipped => processTs w duration rest
      | FrameOut.err => ([Ev.extracting s], Except.error ())
      | FrameOut.ok buf =>
        match w.uploadRes buf with
        | none => ([Ev.extracting s, Ev.uploading s], Except.error ())
        | some url =>
          match processTs w duration rest with
          | (evs, Except.error e) =>
            (Ev.extracting s :: Ev.uploading s :: evs, Except.error e)
          | (evs, Except.ok urls) =>
            (Ev.extracting s :: Ev.uploading s :: evs,
             Except.ok (url :: urls))

/-- The outer loop over `Object.entries(analysis)` (lines 278-292).  A
value that is not an array is not iterable (`for...of` throws), except
that a string iterates its characters: the empty string yields an empty
frame list and any other string throws at `ts.start`. -/
def processExprs (w : World) (duration : Int) :
    List (String × JValue) →
      List Ev × Except Unit (List (String × List String))
  | [] => ([], Except.ok [])
  | (exp, v) :: rest =>
    match v with
    | JValue.arr l =>
      match processTs w duration l with
      | (evs, Except.error e) => (evs, Except.error e)
      | (evs, Except.ok urls) =>
        match processExprs w duration rest with
        | (evs2, Except.error e) => (evs ++ evs2, Except.error e)
        | (evs2, Except.ok rs) =>
          (evs ++ evs2, Except.ok ((exp, urls) :: rs))
    | JValue.str s =>
      if s = "" then
        match processExprs w duration rest with
        | (evs2, Except.error e) => (evs2, Except.error e)
        | (evs2, Except.ok rs) => (evs2, Except.ok ((exp, []) :: rs))
      else ([], Except.error ())
    | _ => ([], Except.error ())

/-- `!expression || expression === "all"` (line 181). -/
def isAllOf : Option String → Bool
  | none => true
  | some e => decide (e = "") || decide (e = "all")

/-- The key used by the single-expression branch at line 262 (unused when
the target is "all"). -/
def keyOf : Option String → String
  | none => ""
  | some e => e

/-- The mode dispatch of the response parser (lines 235-263). -/
def parseForMode (req : Request) (w : World) :
    Except Unit (List (String × JValue)) :=
  if isAllOf req.expression then parseAnalysisAll w.parsed
  else parseAnalysisSingle (keyOf req.expression) w.parsed

/-- From the probe on: the temp file exists; run the extraction loop
inside try/finally (lines 275-305), so the temp file is deleted on both
loop outcomes.  The response is the message object only when `results`
has no keys (line 294 tests the key count, not the frame count). -/
def postProbed (w : World) (d : Int)
    (entries : List (String × JValue)) : Output :=
  match processExprs w d entries with
  | (levs, Except.error _) =>
    ⟨[Ev.validated, Ev.fetched, Ev.inferred, Ev.parsed, Ev.probed] ++ levs,
     Resp.internalError, true, true⟩
  | (levs, Except.ok results) =>
    ⟨[Ev.validated, Ev.fetched, Ev.inferred, Ev.parsed, Ev.probed] ++
       levs ++ [Ev.assembled],
     if results.length > 0 then Resp.success results else Resp.successEmpty,
     true, true⟩

/-- After a successful parse: the video is written to the temp file
(line 271) and the duration probed (line 273) — both BEFORE the
try/finally, so a probe failure propagates to the outer catch with the
temp file left on disk. -/
def postParsed (w : World) (entries : List (String × JValue)) : Output :=
  match w.probeResult with
  | Except.error _ =>
    ⟨[Ev.validated, Ev.fetched, Ev.inferred, Ev.parsed],
     Resp.internalError, true, false⟩
  | Except.ok d => postProbed w d entries

/-- After the inference call returned text: parse per mode; a parse
failure returns the 500 parse-failure response before any temp file is
created. -/
def postInferred (req : Request) (w : World) : Output :=
  match parseForMode req w with
  | Except.error _ =>
    ⟨[Ev.validated, Ev.fetched, Ev.inferred], Resp.parseFailure,
     false, false⟩
  | Except.ok entries => postParsed w entries

/-- After the fetch and size check: issue the inference call (a thrown
call reaches the outer catch); falsy response text yields the 500
no-response reply. -/
def postFetched (req : Request) (w : World) : Output :=
  if w.aiCallOk then
    match w.aiText with
    | none => ⟨[Ev.validated, Ev.fetched], Resp.noAiResponse, false, false⟩
    | some t =>
      if t = "" then
        ⟨[Ev.validated, Ev.fetched], Resp.noAiResponse, false, false⟩
      else postInferred req w
  else ⟨[Ev.validated, Ev.fetched], Resp.internalError, false, false⟩

/-- After validation: fetch the video (a non-ok fetch throws to the outer
catch), then enforce the 20 MB inline-data ceiling (lines 173-175). -/
def postValidated (req : Request) (w : World) : Output :=
  if w.fetchOk then
    if w.videoSize > 20 * 1024 * 1024 then
      ⟨[Ev.validated, Ev.fetched], Resp.videoTooLarge, false, false⟩
    else postFetched req w
  else ⟨[Ev.validated], Resp.internalError, false, false⟩

/-- The route handler `POST` (lines 149-311).  `!videoUrl` rejects an
absent or empty video reference with the 400 reply before any external
call. -/
def POST (req : Request) (w : World) : Output :=
  match req.videoUrl with
  | none => ⟨[], Resp.missingVideoUrl, false, false⟩
  | some url =>
    if url = "" then ⟨[], Resp.missingVideoUrl, false, false⟩
    else postValidated req w

/-- `a` occurs strictly before the first occurrence of `b` in the trace. -/
def occursBefore (a b : Ev) (l : List Ev) : Bool :=
  (l.takeWhile (fun e => decide (¬e = b))).any (fun e => decide (e = a))

/-- The events the extraction loop can emit. -/
def isLoopEv : Ev → Bool
  | Ev.extracting _ => true
  | Ev.uploading _ => true
  | _ => false

/-- A parsed range whose start lies beyond a 30-second video. -/
def rangeLate : JValue :=
  JValue.obj [("start", JValue.str "00:05:00"), ("end", JValue.str "00:05:02")]

/-- A parsed range whose start lies inside a 30-second video. -/
def rangeEarly : JValue :=
  JValue.obj [("start", JValue.str "00:00:05"), ("end", JValue.str "00:00:07")]

/-- A request targeting the single expression "happy". -/
def reqHappy : Request := ⟨some "https://x/video.mp4", some "happy"⟩

/-- A request targeting "all". -/
def reqAll : Request := ⟨some "https://x/video.mp4", some "all"⟩

/-- A world where every external call succeeds, the model returned one
out-of-range timestamp for the single target, and the video is 30 s. -/
def W1 : World :=
  ⟨true, 1000, true, some "[x]", some (JValue.arr [rangeLate]),
   Except.ok 30, true, fun _ => some 0, fun _ => some "https://img/f.jpg"⟩

/-- Like `W1` but the duration probe fails. -/
def W2 : World :=
  ⟨true, 1000, true, some "[x]", some (JValue.arr [rangeLate]),
   Except.error (), true, fun _ => some 0, fun _ => some "https://img/f.jpg"⟩

/-- Like `W1` but the model returned one in-range timestamp. -/
def W3 : World :=
  ⟨true, 1000, true, some "[x]", some (JValue.arr [rangeEarly]),
   Except.ok 30, true, fun _ => some 0, fun _ => some "https://img/f.jpg"⟩

/-- Like `W1` but the model text parsed to the empty JSON array. -/
def W5 : World :=
  ⟨true, 1000, true, some "[x]", some (JValue.arr []),
   Except.ok 30, true, fun _ => some 0, fun _ => some "https://img/f.jpg"⟩

/-- Like `W1` but the model text parsed to a JSON array wrapping one
timestamp-range array. -/
def W5c : World :=
  ⟨true, 1000, true, some "[x]", some (JValue.arr [JValue.arr [rangeEarly]]),
   Except.ok 30, true, fun _ => some 0, fun _ => some "https://img/f.jpg"⟩

/-- Like `W1` but the model text parsed to the JSON number 3. -/
def W6 : World :=
  ⟨true, 1000, true, some "[x]", some (JValue.num 3),
   Except.ok 30, true, fun _ => some 0, fun _ => some "https://img/f.jpg"⟩

/-- A range equal to `rangeEarly` except in its end field. -/
def rangeEarlyAltEnd : JValue :=
  JValue.obj [("start", JValue.str "00:00:05"), ("end", JValue.str "00:09:59")]

lemma splitCols_no_colon : ∀ l : List Char, ':' ∉ l → splitCols l = [l] := by
  intro l
  induction l with
  | nil => intro _; rfl
  | cons c cs ih =>
    intro h
    rw [List.mem_cons, not_or] at h
    obtain ⟨h1, h2⟩ := h
    simp only [splitCols, ih h2]
    rw [if_neg (fun e => h1 e.symm)]

lemma splitCols_append : ∀ (a b : List Char), ':' ∉ a →
    splitCols (a ++ ':' :: b) = a :: splitCols b := by
  intro a
  induction a with
  | nil =>
    intro b _
    simp [splitCols]
  | cons c cs ih =>
    intro b h
    rw [List.mem_cons, not_or] at h
    obtain ⟨h1, h2⟩ := h
    rw [List.cons_append]
    simp only [splitCols]
    rw [if_neg (fun e => h1 e.symm), ih b h2]

lemma tsFields_three (A B C : String)
    (hA : ':' ∉ A.data) (hB : ':' ∉ B.data) (hC : ':' ∉ C.data) :
    tsFields (A ++ ":" ++ B ++ ":" ++ C) = [A, B, C] := by
  have hdata : (A ++ ":" ++ B ++ ":" ++ C).data
      = A.data ++ ':' :: (B.data ++ ':' :: C.data) := by
    show A.data ++ [':'] ++ B.data ++ [':'] ++ C.data
        = A.data ++ ':' :: (B.data ++ ':' :: C.data)
    simp
  rw [tsFields, hdata, splitCols_append _ _ hA, splitCols_append _ _ hB,
    splitCols_no_colon _ hC]
  rfl

lemma jadd_nan_right : ∀ x, jadd x JNum.nan = JNum.nan := by
  intro x
  cases x <;> rfl

lemma tsStep_nan (t : String) : tsStep JNum.nan t = JNum.nan := rfl

lemma foldl_tsStep_nan : ∀ fs : List String,
    fs.foldl tsStep JNum.nan = JNum.nan := by
  intro fs
  induction fs with
  | nil => rfl
  | cons f r ih => rw [List.foldl_cons, tsStep_nan]; exact ih

lemma foldl_tsStep_mem_nan : ∀ (fs : List String) (f : String), f ∈ fs →
    parseIntJS f = JNum.nan → ∀ acc, fs.foldl tsStep acc = JNum.nan := by
  intro fs
  induction fs with
  | nil => intro f h; exact absurd h (List.not_mem_nil f)
  | cons g r ih =>
    intro f hmem hnan acc
    rw [List.mem_cons] at hmem
    rw [List.foldl_cons]
    cases hmem with
    | inl e =>
      have hg : tsStep acc g = JNum.nan := by
        rw [tsStep, ← e, hnan, jadd_nan_right]
      rw [hg]
      exact foldl_tsStep_nan r
    | inr hr => exact ih f hr hnan (tsStep acc g)

lemma hasKeyB_iff (es : List (String × JValue)) (k : String) :
    hasKeyB es k = true ↔ k ∈ es.map Prod.fst := by
  simp [hasKeyB, List.any_eq_true, List.mem_map]

lemma mem_foldl_backfill (exps : List String) :
    ∀ (es : List (String × JValue)) kv, kv ∈ es →
      kv ∈ exps.foldl backfillStep es := by
  induction exps with
  | nil => intro es kv h; exact h
  | cons e tl ih =>
    intro es kv h
    rw [List.foldl_cons]
    apply ih
    rw [backfillStep]
    split
    · exact h
    · exact List.mem_append_left _ h

lemma keys_foldl_backfill_superset (exps : List String) :
    ∀ (es : List (String × JValue)) k, k ∈ es.map Prod.fst →
      k ∈ (exps.foldl backfillStep es).map Prod.fst := by
  intro es k h
  rw [List.mem_map] at h
  obtain ⟨kv, hkv, he⟩ := h
  rw [List.mem_map]
  exact ⟨kv, mem_foldl_backfill exps es kv hkv, he⟩

lemma exps_mem_keys_foldl (exps : List String) :
    ∀ (es : List (String × JValue)) e, e ∈ exps →
      e ∈ (exps.foldl backfillStep es).map Prod.fst := by
  induction exps with
  | nil => intro es e h; exact absurd h (List.not_mem_nil e)
  | cons a tl ih =>
    intro es e h
    rw [List.foldl_cons]
    rw [List.mem_cons] at h
    cases h with
    | inl e_eq =>
      subst e_eq
      apply keys_foldl_backfill_superset
      by_cases hk : hasKeyB es e
      · rw [backfillStep, if_pos hk]
        exact (hasKeyB_iff es e).mp hk
      · rw [backfillStep, if_neg hk]
        simp
    | inr htl => exact ih _ e htl

lemma keys_foldl_backfill_sub (exps : List String) :
    ∀ (es : List (String × JValue)) k,
      k ∈ (exps.foldl backfillStep es).map Prod.fst →
      k ∈ es.map Prod.fst ∨ k ∈ exps := by
  induction exps with
  | nil => intro es k h; exact Or.inl h
  | cons a tl ih =>
    intro es k h
    rw [List.foldl_cons] at h
    rcases ih _ k h with h2 | h2
    · rw [backfillStep] at h2
      by_cases hk : hasKeyB es a
      · rw [if_pos hk] at h2
        exact Or.inl h2
      · rw [if_neg hk] at h2
        rw [List.map_append, List.mem_append] at h2
        rcases h2 with h2 | h2
        · exact Or.inl h2
        · simp at h2
          exact Or.inr (by rw [h2]; exact List.mem_cons_self a tl)
    · exact Or.inr (List.mem_cons_of_mem a h2)

lemma missing_added_foldl (exps : List String) :
    ∀ (es : List (String × JValue)) e, e ∈ exps →
      e ∉ es.map Prod.fst →
      (e, JValue.arr []) ∈ exps.foldl backfillStep es := by
  induction exps with
  | nil => intro es e h; exact absurd h (List.not_mem_nil e)
  | cons a tl ih =>
    intro es e hmem hnot
    rw [List.foldl_cons]
    rw [List.mem_cons] at hmem
    by_cases hea : e = a
    · subst hea
      have hk : ¬hasKeyB es e = true :=
        fun hk => hnot ((hasKeyB_iff es e).mp hk)
      rw [backfillStep, if_neg hk]
      apply mem_foldl_backfill
      exact List.mem_append_right _ (by simp)
    · have htl : e ∈ tl := hmem.resolve_left hea
      apply ih _ e htl
      rw [backfillStep]
      by_cases hk : hasKeyB es a
      · rw [if_pos hk]; exact hnot
      · rw [if_neg hk]
        intro hcon
        rw [List.map_append, List.mem_append] at hcon
        rcases hcon with hcon | hcon
        · exact hnot hcon
        · simp at hcon
          exact hea hcon

lemma takeWhile_append_of_mem (b : Ev) :
    ∀ (l1 l2 : List Ev), b ∈ l1 →
      (l1 ++ l2).takeWhile (fun e => decide (¬e = b)) =
        l1.takeWhile (fun e => decide (¬e = b)) := by
  intro l1
  induction l1 with
  | nil => intro l2 h; exact absurd h (List.not_mem_nil b)
  | cons x xs ih =>
    intro l2 h
    rw [List.cons_append, List.takeWhile_cons, List.takeWhile_cons]
    by_cases hx : x = b
    · subst hx
      simp
    · have hb : b ∈ xs := (List.mem_cons.mp h).resolve_left (fun e => hx e.symm)
      rw [ih l2 hb]

lemma occursBefore_append (a b : Ev) (l1 l2 : List Ev) (hb : b ∈ l1) :
    occursBefore a b (l1 ++ l2) = occursBefore a b l1 := by
  rw [occursBefore, occursBefore, takeWhile_append_of_mem b l1 l2 hb]

lemma processTs_loopEv (w : World) (d : Int) :
    ∀ l, ∀ e ∈ (processTs w d l).1, isLoopEv e = true := by
  intro l
  induction l with
  | nil => intro e he; simp [processTs] at he
  | cons ts rest ih =>
    intro e he
    simp only [processTs] at he
    cases hg : getStart ts with
    | none => simp only [hg] at he; simp at he
    | some s =>
      simp only [hg] at he
      cases hx : extractFrame w s d with
      | skipped => simp only [hx] at he; exact ih e he
      | err =>
        simp only [hx] at he
        simp at he
        rw [he]; rfl
      | ok buf =>
        simp only [hx] at he
        cases hu : w.uploadRes buf with
        | none =>
          simp only [hu] at he
          simp at he
          rcases he with he | he <;> (rw [he]; rfl)
        | some url =>
          simp only [hu] at he
          cases hrest : processTs w d rest with
          | mk evs r =>
            simp only [hrest] at he
            cases r with
            | error er =>
              simp at he
              rcases he with he | he | he
              · rw [he]; rfl
              · rw [he]; rfl
              · exact ih e (by rw [hrest]; exact he)
            | ok urls =>
              simp at he
              rcases he with he | he | he
              · rw [he]; rfl
              · rw [he]; rfl
              · exact ih e (by rw [hrest]; exact he)

lemma processExprs_loopEv (w : World) (d : Int) :
    ∀ entries, ∀ e ∈ (processExprs w d entries).1, isLoopEv e = true := by
  intro entries
  induction entries with
  | nil => intro e he; simp [processExprs] at he
  | cons hd rest ih =>
    obtain ⟨exp, v⟩ := hd
    intro e he
    simp only [processExprs] at he
    cases v with
    | arr l =>
      cases hts : processTs w d l with
      | mk evs r =>
        simp only [hts] at he
        cases r with
        | error er =>
          exact processTs_loopEv w d l e (by rw [hts]; exact he)
        | ok urls =>
          cases hre : processExprs w d rest with
          | mk evs2 r2 =>
            simp only [hre] at he
            cases r2 with
            | error er =>
              simp only [] at he
              rw [List.mem_append] at he
              rcases he with he | he
              · exact processTs_loopEv w d l e (by rw [hts]; exact he)
              · exact ih e (by rw [hre]; exact he)
            | ok rs =>
              simp only [] at he
              rw [List.mem_append] at he
              rcases he with he | he
              · exact processTs_loopEv w d l e (by rw [hts]; exact he)
              · exact ih e (by rw [hre]; exact he)
    | str s =>
      simp only [] at he
      by_cases hs : s = ""
      · rw [if_pos hs] at he
        cases hre : processExprs w d rest with
        | mk evs2 r2 =>
          simp only [hre] at he
          cases r2 with
          | error er => exact ih e (by rw [hre]; exact he)
          | ok rs => exact ih e (by rw [hre]; exact he)
      · rw [if_neg hs] at he
        simp at he
    | null => simp at he
    | bool b => simp at he
    | num n => simp at he
    | obj kvs => simp at he

/-- C7: for colon-separated numeric fields the converter accumulates left
to right, each previous total weighted by 60 when the next field enters,
equivalently ((H*60)+M)*60+S on three fields; in particular "01:01:01"
converts to 3661 seconds. -/
theorem c7_timestamp_conversion (A B C : String) (H M S : Int)
    (hA : ':' ∉ A.data) (hB : ':' ∉ B.data) (hC : ':' ∉ C.data)
    (pA : parseIntJS A = JNum.val H) (pB : parseIntJS B = JNum.val M)
    (pC : parseIntJS C = JNum.val S) :
    tsSecondsJS (A ++ ":" ++ B ++ ":" ++ C) =
      JNum.val ((H * 60 + M) * 60 + S) ∧
    (∀ (fs : List String) (x : String),
      (fs ++ [x]).foldl tsStep (JNum.val 0) =
        jadd (jmul60 (fs.foldl tsStep (JNum.val 0))) (parseIntJS x)) ∧
    tsSecondsJS "01:01:01" = JNum.val 3661 := by
  refine ⟨?_, ?_, by decide⟩
  · rw [tsSecondsJS, tsFields_three A B C hA hB hC]
    simp only [List.foldl_cons, List.foldl_nil, tsStep, pA, pB, pC, jadd,
      jmul60]
    congr 1
    ring
  · intro fs x
    rw [List.foldl_append]
    rfl

/-- C7 witness at "01", "01", "01". -/
theorem c7_timestamp_conversion_witness :
    tsSecondsJS ("01" ++ ":" ++ "01" ++ ":" ++ "01") =
      JNum.val ((1 * 60 + 1) * 60 + 1) ∧
    tsSecondsJS "01:01:01" = JNum.val 3661 := by
  have h := c7_timestamp_conversion "01" "01" "01" 1 1 1 (by decide)
    (by decide) (by decide) (by decide) (by decide) (by decide)
  exact ⟨h.1, h.2.2⟩

/-- C10: a timestamp with a non-parsing field converts to NaN, the
duration bounds check does not trigger the skip branch, and frame
extraction proceeds on the raw timestamp string. -/
theorem c10_nan_timestamp (s f : String) (hf : f ∈ tsFields s)
    (hnan : parseIntJS f = JNum.nan) :
    tsSecondsJS s = JNum.nan ∧
    ∀ (d : Int) (w : World),
      extractFrame w s d ≠ FrameOut.skipped ∧
      (w.ffmpegAvailable = true →
        extractFrame w s d =
          (match w.ffmpegFrame s with
           | some b => FrameOut.ok b
           | none => FrameOut.err)) := by
  have hts : tsSecondsJS s = JNum.nan :=
    foldl_tsStep_mem_nan (tsFields s) f hf hnan (JNum.val 0)
  refine ⟨hts, ?_⟩
  intro d w
  have hg : jgtInt (tsSecondsJS s) d = false := by rw [hts]; rfl
  constructor
  · simp only [extractFrame, hg]
    cases hb : w.ffmpegAvailable
    · simp
    · simp
      cases hmf : w.ffmpegFrame s <;> simp
  · intro hav
    simp only [extractFrame, hg, hav]
    simp

/-- C10 witness at "00:aa:00" against a 30-second video. -/
theorem c10_nan_timestamp_witness :
    tsSecondsJS "00:aa:00" = JNum.nan ∧
    extractFrame W1 "00:aa:00" 30 ≠ FrameOut.skipped ∧
    extractFrame W1 "00:aa:00" 30 = FrameOut.ok 0 := by
  have h := c10_nan_timestamp "00:aa:00" "aa" (by decide) (by decide)
  exact ⟨h.1, (h.2 30 W1).1, (h.2 30 W1).2 rfl⟩

/-- C6: a timestamp whose converted seconds exceed the probed duration is
skipped by `extractFrame` (no frame, no error), and deleting such a range
from the timestamp list leaves the loop result — events, frame URLs and
success/failure — unchanged: the range contributes nothing and the
request continues. -/
theorem c6_overshoot_skipped (w : World) (d : Int) (s : String)
    (h : jgtInt (tsSecondsJS s) d = true) :
    extractFrame w s d = FrameOut.skipped ∧
    ∀ (pre post : List JValue) (bad : JValue), getStart bad = some s →
      processTs w d (pre ++ bad :: post) = processTs w d (pre ++ post) := by
  have hskip : extractFrame w s d = FrameOut.skipped := by
    simp [extractFrame, h]
  refine ⟨hskip, ?_⟩
  intro pre
  induction pre with
  | nil =>
    intro post bad hb
    simp only [List.nil_append, processTs, hb, hskip]
  | cons p pr ih =>
    intro post bad hb
    simp only [List.cons_append, processTs]
    cases hp : getStart p with
    | none => simp only [hp]
    | some s2 =>
      simp only [hp]
      cases hx : extractFrame w s2 d with
      | skipped => simp only [hx]; exact ih post bad hb
      | err => simp only [hx]
      | ok buf =>
        simp only [hx]
        cases hu : w.uploadRes buf with
        | none => simp only [hu]
        | some url =>
          simp only [hu, List.append_eq]
          rw [ih post bad hb]

/-- C6 witness: the range starting at "00:05:00" in a 30-second video is
skipped and contributes nothing next to the in-range "00:00:05" range. -/
theorem c6_overshoot_skipped_witness :
    jgtInt (tsSecondsJS "00:05:00") 30 = true ∧
    extractFrame W1 "00:05:00" 30 = FrameOut.skipped ∧
    processTs W1 30 [rangeEarly, rangeLate] = processTs W1 30 [rangeEarly] := by
  have h := c6_overshoot_skipped W1 30 "00:05:00" (by decide)
  exact ⟨by decide, h.1, h.2 [rangeEarly] [] rangeLate (by decide)⟩

/-- C9: the extraction loop reads only the start timestamp of each range:
any two timestamp lists with the same per-range `start` projection — in
particular lists differing only in end fields — produce identical loop
results. -/
theorem c9_end_field_ignored (w : World) (d : Int) :
    ∀ (l l2 : List JValue), l.map getStart = l2.map getStart →
      processTs w d l = processTs w d l2 := by
  intro l
  induction l with
  | nil =>
    intro l2 h
    have h0 : l2 = [] := by
      cases l2 with
      | nil => rfl
      | cons a b => simp at h
    rw [h0]
  | cons t r ih =>
    intro l2 h
    cases l2 with
    | nil => simp at h
    | cons t2 r2 =>
      simp only [List.map_cons, List.cons.injEq] at h
      obtain ⟨h1, h2⟩ := h
      simp only [processTs]
      rw [h1]
      cases hg : getStart t2 with
      | none => simp only [hg]
      | some s =>
        simp only [hg]
        cases hx : extractFrame w s d with
        | skipped => simp only [hx]; exact ih r2 h2
        | err => simp only [hx]
        | ok buf =>
          simp only [hx]
          cases hu : w.uploadRes buf with
          | none => simp only [hu]
          | some url =>
            simp only [hu]
            rw [ih r2 h2]

/-- C9 witness: changing only the end field of a range leaves the loop
result unchanged. -/
theorem c9_end_field_ignored_witness :
    [rangeEarly].map getStart = [rangeEarlyAltEnd].map getStart ∧
    processTs W3 30 [rangeEarly] = processTs W3 30 [rangeEarlyAltEnd] := by
  refine ⟨by decide, ?_⟩
  exact c9_end_field_ignored W3 30 [rangeEarly] [rangeEarlyAltEnd] (by decide)

/-- C4 counterexample: a model object carrying a key outside the five
fixed expressions keeps that key after back-filling — the parsed mapping
has six keys, so it does not contain exactly the five fixed keys. -/
theorem c4_extra_key_counterexample :
    parseAnalysisAll (some (JValue.obj [("confused", JValue.arr [])])) =
      Except.ok
        [("confused", JValue.arr []), ("happy", JValue.arr []),
         ("sad", JValue.arr []), ("angry", JValue.arr []),
         ("surprised", JValue.arr []), ("neutral", JValue.arr [])] ∧
    "confused" ∉ allExpressions := ⟨rfl, by decide⟩

/-- C4 amended: after a successful "all"-mode parse the mapping contains
at least the five fixed keys, each missing one back-filled with the empty
array; every key present stems from the model object or the fixed five;
and the model object entries are retained — keys outside the five are not
removed. -/
theorem c4_backfilled_keys (v : JValue) (entries : List (String × JValue))
    (h : parseAnalysisAll (some v) = Except.ok entries) :
    (∀ exp ∈ allExpressions, exp ∈ entries.map Prod.fst) ∧
    (∀ k ∈ entries.map Prod.fst,
      k ∈ (jsEntries v).map Prod.fst ∨ k ∈ allExpressions) ∧
    (∀ kv ∈ jsEntries v, kv ∈ entries) ∧
    (∀ exp ∈ allExpressions, exp ∉ (jsEntries v).map Prod.fst →
      (exp, JValue.arr []) ∈ entries) := by
  have hdef : parseAnalysisAll (some v) =
      if rejectedAllMode v then Except.error ()
      else Except.ok (backfill (jsEntries v)) := rfl
  rw [hdef] at h
  by_cases hrej : rejectedAllMode v = true
  · rw [if_pos hrej] at h
    simp at h
  · rw [if_neg hrej] at h
    have hentries : entries = backfill (jsEntries v) := by
      injection h with h
      exact h.symm
    subst hentries
    refine ⟨?_, ?_, ?_, ?_⟩
    · intro exp hexp
      exact exps_mem_keys_foldl allExpressions (jsEntries v) exp hexp
    · intro k hk
      exact keys_foldl_backfill_sub allExpressions (jsEntries v) k hk
    · intro kv hkv
      exact mem_foldl_backfill allExpressions (jsEntries v) kv hkv
    · intro exp hexp hnot
      exact missing_added_foldl allExpressions (jsEntries v) exp hexp hnot

/-- C4 witness at the object with the extra key "confused". -/
theorem c4_backfilled_keys_witness :
    "happy" ∈
      ([("confused", JValue.arr []), ("happy", JValue.arr []),
        ("sad", JValue.arr []), ("angry", JValue.arr []),
        ("surprised", JValue.arr []), ("neutral", JValue.arr [])].map
         Prod.fst) ∧
    ("happy", JValue.arr []) ∈
      [("confused", JValue.arr []), ("happy", JValue.arr []),
       ("sad", JValue.arr []), ("angry", JValue.arr []),
       ("surprised", JValue.arr []), ("neutral", JValue.arr [])] := by
  have h := c4_backfilled_keys (JValue.obj [("confused", JValue.arr [])])
    [("confused", JValue.arr []), ("happy", JValue.arr []),
     ("sad", JValue.arr []), ("angry", JValue.arr []),
     ("surprised", JValue.arr []), ("neutral", JValue.arr [])] rfl
  exact ⟨h.1 "happy" (by decide), h.2.2.2 "happy" (by decide) (by decide)⟩

/-- C5 counterexample: in "all" mode a model output that parses to a JSON
array is NOT rejected — `typeof` of a JS array is `'object'` — so the
request proceeds through extraction and returns a success response, not
the 500 parse-failure response the claim requires. -/
theorem c5_array_accepted_counterexample :
    parseAnalysisAll (some (JValue.arr [JValue.arr [rangeEarly]])) =
      Except.ok
        [("0", JValue.arr [rangeEarly]), ("happy", JValue.arr []),
         ("sad", JValue.arr []), ("angry", JValue.arr []),
         ("surprised", JValue.arr []), ("neutral", JValue.arr [])] ∧
    POST reqAll W5c =
      ⟨[Ev.validated, Ev.fetched, Ev.inferred, Ev.parsed, Ev.probed,
        Ev.extracting "00:00:05", Ev.uploading "00:00:05", Ev.assembled],
       Resp.success
         [("0", ["https://img/f.jpg"]), ("happy", []), ("sad", []),
          ("angry", []), ("surprised", []), ("neutral", [])], true, true⟩ ∧
    (POST reqAll W5c).resp ≠ Resp.parseFailure := by
  exact ⟨rfl, by decide, by decide⟩

/-- C5 amended: in "all" mode a parsed value that is null, a number, a
string, or a boolean fails the typeof/null check: the request returns the
500 parse-failure response, no extraction is attempted (no loop events)
and no temp file is created.  A JSON array, by contrast, passes the check
and is processed like an object. -/
theorem c5_nonobject_rejected (req : Request) (w : World) (url txt : String)
    (v : JValue)
    (h1 : req.videoUrl = some url) (h2 : ¬url = "")
    (h3 : w.fetchOk = true) (h4 : ¬w.videoSize > 20 * 1024 * 1024)
    (h5 : w.aiCallOk = true) (h6 : w.aiText = some txt) (h7 : ¬txt = "")
    (hAll : isAllOf req.expression = true) (hv : w.parsed = some v)
    (hbad : v = JValue.null ∨ (∃ n, v = JValue.num n) ∨
      (∃ s, v = JValue.str s) ∨ (∃ b, v = JValue.bool b)) :
    POST req w =
      ⟨[Ev.validated, Ev.fetched, Ev.inferred], Resp.parseFailure,
       false, false⟩ ∧
    statusOf Resp.parseFailure = 500 := by
  have hrej : rejectedAllMode v = true := by
    rcases hbad with h | ⟨n, h⟩ | ⟨s, h⟩ | ⟨b, h⟩ <;> (subst h; rfl)
  have h8 : parseForMode req w = Except.error () := by
    unfold parseForMode
    rw [if_pos hAll, hv]
    have hdef : parseAnalysisAll (some v) =
        if rejectedAllMode v then Except.error ()
        else Except.ok (backfill (jsEntries v)) := rfl
    rw [hdef, if_pos hrej]
  constructor
  · unfold POST
    simp only [h1]
    rw [if_neg h2]
    unfold postValidated
    rw [if_pos h3, if_neg h4]
    unfold postFetched
    rw [if_pos h5]
    simp only [h6]
    rw [if_neg h7]
    unfold postInferred
    simp only [h8]
  · rfl

/-- C5 witness at the JSON number 3. -/
theorem c5_nonobject_rejected_witness :
    POST reqAll W6 =
      ⟨[Ev.validated, Ev.fetched, Ev.inferred], Resp.parseFailure,
       false, false⟩ ∧
    statusOf Resp.parseFailure = 500 :=
  c5_nonobject_rejected reqAll W6 "https://x/video.mp4" "[x]"
    (JValue.num 3) rfl (by decide) rfl (by decide) rfl rfl (by decide)
    (by decide) rfl (Or.inr (Or.inl ⟨3, rfl⟩))

/-- C8: an absent video reference is rejected with the 400 missing-url
response before any external call — the output is the same constant for
every world, with an empty event trace and no temp file — and an absent
target expression behaves exactly as the explicit target "all". -/
theorem c8_validation :
    (∀ (e : Option String) (w : World),
      POST ⟨none, e⟩ w = ⟨[], Resp.missingVideoUrl, false, false⟩) ∧
    statusOf Resp.missingVideoUrl = 400 ∧
    (∀ (url : String) (w : World),
      POST ⟨some url, none⟩ w = POST ⟨some url, some "all"⟩ w) := by
  refine ⟨fun e w => rfl, rfl, fun url w => rfl⟩

/-- C1 (code evaluation): a run in which every timestamp is skipped still
returns the plain success response carrying the expression key with an
empty frame list — not the empty-mapping message response the claim
demands — because line 294 tests the number of keys of `results` (always
positive: the analysis mapping always has at least one key) rather than
the total frame count. -/
theorem c1_zero_frames_response :
    POST reqHappy W1 =
      ⟨[Ev.validated, Ev.fetched, Ev.inferred, Ev.parsed, Ev.probed,
        Ev.assembled],
       Resp.success [("happy", [])], true, true⟩ ∧
    Resp.success [("happy", [])] ≠ Resp.successEmpty ∧
    statusOf (Resp.success [("happy", [])]) = 200 :=
  ⟨by decide, by decide, rfl⟩

/-- C2 (code evaluation): when the duration probe fails after the temp
file was written, the request ends with the 500 response while the temp
file was created but never deleted — the write (line 271) and the probe
(line 273) run before the try/finally that performs the cleanup. -/
theorem c2_probe_failure_leaks_temp :
    POST reqHappy W2 =
      ⟨[Ev.validated, Ev.fetched, Ev.inferred, Ev.parsed],
       Resp.internalError, true, false⟩ ∧
    (POST reqHappy W2).tempCreated = true ∧
    (POST reqHappy W2).tempDeleted = false :=
  ⟨by decide, by decide, by decide⟩

/-- C3 counterexample: on a complete successful run the trace places the
inference completion strictly before the duration probe — the probe does
NOT complete before the inference call is issued, contrary to the claimed
stage order. -/
theorem c3_probe_after_inference_counterexample :
    (POST reqHappy W3).events =
      [Ev.validated, Ev.fetched, Ev.inferred, Ev.parsed, Ev.probed,
       Ev.extracting "00:00:05", Ev.uploading "00:00:05", Ev.assembled] ∧
    occursBefore Ev.probed Ev.inferred (POST reqHappy W3).events = false ∧
    occursBefore Ev.inferred Ev.probed (POST reqHappy W3).events = true :=
  ⟨by decide, by decide, by decide⟩

/-- C3 amended: on every request that runs to completion the stages
execute in the order Validated, Fetched, Inferred, Parsed, Probed,
per-timestamp Extracting/Uploading, Assembled — the duration probe
completes after the inference call and its parsing, not before. -/
theorem c3_stage_order (req : Request) (w : World) (url txt : String)
    (d : Int) (entries : List (String × JValue)) (levs : List Ev)
    (results : List (String × List String))
    (h1 : req.videoUrl = some url) (h2 : ¬url = "")
    (h3 : w.fetchOk = true) (h4 : ¬w.videoSize > 20 * 1024 * 1024)
    (h5 : w.aiCallOk = true) (h6 : w.aiText = some txt) (h7 : ¬txt = "")
    (h8 : parseForMode req w = Except.ok entries)
    (h9 : w.probeResult = Except.ok d)
    (h10 : processExprs w d entries = (levs, Except.ok results)) :
    (POST req w).events =
      [Ev.validated, Ev.fetched, Ev.inferred, Ev.parsed, Ev.probed] ++
        levs ++ [Ev.assembled] ∧
    (∀ e ∈ levs, isLoopEv e = true) ∧
    occursBefore Ev.inferred Ev.probed (POST req w).events = true ∧
    occursBefore Ev.probed Ev.inferred (POST req w).events = false := by
  have hP : POST req w = postProbed w d entries := by
    unfold POST
    simp only [h1]
    rw [if_neg h2]
    unfold postValidated
    rw [if_pos h3, if_neg h4]
    unfold postFetched
    rw [if_pos h5]
    simp only [h6]
    rw [if_neg h7]
    unfold postInferred
    simp only [h8]
    unfold postParsed
    simp only [h9]
  have hPP : postProbed w d entries =
      ⟨[Ev.validated, Ev.fetched, Ev.inferred, Ev.parsed, Ev.probed] ++
         levs ++ [Ev.assembled],
       if results.length > 0 then Resp.success results
       else Resp.successEmpty, true, true⟩ := by
    unfold postProbed
    simp only [h10]
  have hev : (POST req w).events =
      [Ev.validated, Ev.fetched, Ev.inferred, Ev.parsed, Ev.probed] ++
        levs ++ [Ev.assembled] := by
    rw [hP, hPP]
  refine ⟨hev, ?_, ?_, ?_⟩
  · intro e he
    apply processExprs_loopEv w d entries e
    rw [h10]
    exact he
  · rw [hev, List.append_assoc,
      occursBefore_append Ev.inferred Ev.probed
        [Ev.validated, Ev.fetched, Ev.inferred, Ev.parsed, Ev.probed]
        (levs ++ [Ev.assembled]) (by decide)]
    decide
  · rw [hev, List.append_assoc,
      occursBefore_append Ev.probed Ev.inferred
        [Ev.validated, Ev.fetched, Ev.inferred, Ev.parsed, Ev.probed]
        (levs ++ [Ev.assembled]) (by decide)]
    decide

/-- C3 witness on a complete successful single-expression run. -/
theorem c3_stage_order_witness :
    (POST reqHappy W3).events =
      [Ev.validated, Ev.fetched, Ev.inferred, Ev.parsed, Ev.probed] ++
        [Ev.extracting "00:00:05", Ev.uploading "00:00:05"] ++
        [Ev.assembled] ∧
    isLoopEv (Ev.extracting "00:00:05") = true ∧
    occursBefore Ev.inferred Ev.probed (POST reqHappy W3).events = true ∧
    occursBefore Ev.probed Ev.inferred (POST reqHappy W3).events = false := by
  have h := c3_stage_order reqHappy W3 "https://x/video.mp4" "[x]" 30
    [("happy", JValue.arr [rangeEarly])]
    [Ev.extracting "00:00:05", Ev.uploading "00:00:05"]
    [("happy", ["https://img/f.jpg"])]
    rfl (by decide) rfl (by decide) rfl rfl (by decide) rfl rfl rfl
  exact ⟨h.1, h.2.1 (Ev.extracting "00:00:05") (by decide), h.2.2.1,
    h.2.2.2⟩
